import Mathlib

/-!
Verification of the snippet materialization tooling of this repository
(snippet parsing, the shell-snippet evaluator, and the materialization
engine described by the specification).  Python code is shallowly embedded:
pure functions become Lean functions, the mutable dict becomes an explicit
association list, and subprocess/filesystem effects become explicit state
passing.
-/

namespace Materialize

/-! ## Python string primitives

Models of the Python `str` operations the sources use (`strip`, `split`,
`splitlines`); restricted to the ASCII whitespace and line terminators,
which is all the snippet sources contain. -/

/-- Characters Python treats as (ASCII) whitespace in `str.strip` / `str.split`. -/
def pyIsSpace (c : Char) : Bool :=
  c = ' ' || c = '\t' || c = '\n' || c = '\x0d' || c = '\x0b' || c = '\x0c'

/-- Python `str.splitlines` on the character list: lines split at LF, CR, CRLF, VT, FF;
a trailing terminator yields no extra empty line. -/
def splitlinesAux : List Char → List Char → List String
  | [], acc => if acc.isEmpty then [] else [String.mk acc.reverse]
  | '\x0d' :: '\n' :: rest, acc => String.mk acc.reverse :: splitlinesAux rest []
  | '\n' :: rest, acc => String.mk acc.reverse :: splitlinesAux rest []
  | '\x0d' :: rest, acc => String.mk acc.reverse :: splitlinesAux rest []
  | '\x0b' :: rest, acc => String.mk acc.reverse :: splitlinesAux rest []
  | '\x0c' :: rest, acc => String.mk acc.reverse :: splitlinesAux rest []
  | c :: rest, acc => splitlinesAux rest (c :: acc)

/-- Python `code.splitlines()`. -/
def pySplitlines (s : String) : List String :=
  splitlinesAux s.data []

/-- Python `line.strip()`: drop whitespace from both ends. -/
def pyStrip (s : String) : String :=
  String.mk ((s.data.dropWhile pyIsSpace).reverse.dropWhile pyIsSpace).reverse

/-- Python `s.split()` (split on whitespace runs, no empty fields). -/
def pySplitAllAux : List Char → List Char → List String
  | [], acc => if acc.isEmpty then [] else [String.mk acc.reverse]
  | c :: rest, acc =>
    if pyIsSpace c then
      if acc.isEmpty then pySplitAllAux rest []
      else String.mk acc.reverse :: pySplitAllAux rest []
    else pySplitAllAux rest (c :: acc)

def pySplitAll (s : String) : List String :=
  pySplitAllAux s.data []

/-- Python `s.split(None, maxsplit)` on a character list: after `maxsplit`
splits the remainder (with its leading whitespace removed) is kept whole. -/
def pySplitWs : Nat → List Char → List String
  | 0, cs =>
    let cs := cs.dropWhile pyIsSpace
    if cs.isEmpty then [] else [String.mk cs]
  | maxsplit + 1, cs =>
    let cs := cs.dropWhile pyIsSpace
    if cs.isEmpty then []
    else
      String.mk (cs.takeWhile (fun c => !pyIsSpace c)) ::
        pySplitWs maxsplit (cs.dropWhile (fun c => !pyIsSpace c))

/-- Boolean prefix test on character lists. -/
def listIsPrefixB : List Char → List Char → Bool
  | [], _ => true
  | _ :: _, [] => false
  | p :: ps, c :: cs => c = p && listIsPrefixB ps cs

/-- Python `s.startswith(pat)`. -/
def pyStartsWith (s pat : String) : Bool :=
  listIsPrefixB pat.data s.data

/-- Boolean substring test on character lists (`pat` occurs in `text`). -/
def containsSub : List Char → List Char → Bool
  | [], pat => pat.isEmpty
  | c :: rest, pat => listIsPrefixB pat (c :: rest) || containsSub rest pat

/-- Python's `pat in s` on strings. -/
def strContains (s pat : String) : Bool :=
  containsSub s.data pat.data

/-- Decimal value of a digit string (most significant first). -/
def pyDigits (cs : List Char) : Nat :=
  cs.foldl (fun n c => n * 10 + (c.toNat - 48)) 0

/-- Python `int(s)` on the well-formed decimal strings the sources feed it
(a malformed literal, which raises `ValueError` in Python, is out of scope). -/
def pyInt (s : String) : Int :=
  match s.data with
  | '-' :: rest => - (pyDigits rest : Int)
  | cs => (pyDigits cs : Int)

/-! ## Association lists: the Python `dict`

Insertion-ordered association list with the update semantics of Python's
`d[k] = v` (replace in place when the key is present, append otherwise)
and `d.get(k)`. -/

def assocGet {α β : Type} [DecidableEq α] (l : List (α × β)) (k : α) : Option β :=
  (l.find? (fun kv => kv.1 = k)).map (fun kv => kv.2)

def assocSet {α β : Type} [DecidableEq α] (l : List (α × β)) (k : α) (v : β) :
    List (α × β) :=
  if l.any (fun kv => kv.1 = k) then
    l.map (fun kv => if kv.1 = k then (k, v) else kv)
  else l ++ [(k, v)]

/-- Python `d.get(k, default)` on a string-valued dict. -/
def assocGetD (l : List (String × String)) (k d : String) : String :=
  (assocGet l k).getD d

/-! ## scripts/snippet_parser.py: parse_pragmas -/

/-- A pragma dict value: most keys map to a single string; `materialize`
is accumulated as a list (scripts/snippet_parser.py, `parse_pragmas`). -/
inductive PragmaVal where
  | str (s : String)
  | list (vs : List String)
deriving DecidableEq, Repr

abbrev PragmaDict := List (String × PragmaVal)

/-- The key/value a single line contributes, if any: the line is stripped,
must start with `# pragma:`, and is split on whitespace with maxsplit 3;
the key is the third token, the value the remainder (empty when absent).
Mirrors the per-line logic of `parse_pragmas` in scripts/snippet_parser.py. -/
def pragmaKV (line : String) : Option (String × String) :=
  let stripped := pyStrip line
  if pyStartsWith stripped "# pragma:" then
    let parts := pySplitWs 3 stripped.data
    if parts.length ≥ 3 then
      some (parts.getD 2 "", parts.getD 3 "")
    else none
  else none

/-- One fold step of `parse_pragmas`: `materialize` accumulates into a list
(`setdefault` + `append`), any other key is overwritten (`pragmas[key] = value`). -/
def processPragmaLine (d : PragmaDict) (line : String) : PragmaDict :=
  match pragmaKV line with
  | none => d
  | some (key, value) =>
    if key = "materialize" then
      let cur := match assocGet d "materialize" with
        | some (PragmaVal.list vs) => vs
        | _ => []
      assocSet d "materialize" (PragmaVal.list (cur ++ [value]))
    else assocSet d key (PragmaVal.str value)

/-- Model of `parse_pragmas` from scripts/snippet_parser.py: extract `# pragma: key value`
directives from script text. -/
def parse_pragmas (code : String) : PragmaDict :=
  (pySplitlines code).foldl processPragmaLine []

/-- The (key, value) pairs of all pragma lines of a script, in order. -/
def pragmaKVs (code : String) : List (String × String) :=
  (pySplitlines code).filterMap pragmaKV

/-! ## SHA-256 (the Fingerprint Engine)

Modelled from the spec: `script_hash` in scripts/materialize_examples (the
script itself is not among the provided sources; its tests pin a 64-character
hex digest, i.e. SHA-256).  32-bit machine words are `Nat` reduced modulo
`2 ^ 32`; the input is the script body's UTF-8 byte sequence, the output the
lowercase hexadecimal rendering of the 256-bit digest. -/

/-- The 32-bit word modulus, 2 ^ 32. -/
def M32 : Nat := 4294967296

def add32 (a b : Nat) : Nat := (a + b) % M32

/-- Bitwise complement on 32-bit words (valid for `x < 2 ^ 32`). -/
def not32 (x : Nat) : Nat := 4294967295 - x

/-- Rotate a 32-bit word right by `n` (for `n ≤ 32`, `x < 2 ^ 32`). -/
def rotr32 (n x : Nat) : Nat :=
  ((x % (2 ^ n)) * 2 ^ (32 - n)) + (x / 2 ^ n)

def bigSigma0 (x : Nat) : Nat := rotr32 2 x ^^^ rotr32 13 x ^^^ rotr32 22 x

def bigSigma1 (x : Nat) : Nat := rotr32 6 x ^^^ rotr32 11 x ^^^ rotr32 25 x

def smallSigma0 (x : Nat) : Nat := rotr32 7 x ^^^ rotr32 18 x ^^^ (x / 2 ^ 3)

def smallSigma1 (x : Nat) : Nat := rotr32 17 x ^^^ rotr32 19 x ^^^ (x / 2 ^ 10)

def chE (e f g : Nat) : Nat := (e &&& f) ^^^ (not32 e &&& g)

def majA (a b c : Nat) : Nat := (a &&& b) ^^^ (a &&& c) ^^^ (b &&& c)

/-- The 64 SHA-256 round constants. -/
def sha256K : List Nat :=
  [1116352408, 1899447441, 3049323471, 3921009573,
   961987163, 1508970993, 2453635748, 2870763221,
   3624381080, 310598401, 607225278, 1426881987,
   1925078388, 2162078206, 2614888103, 3248222580,
   3835390401, 4022224774, 264347078, 604807628,
   770255983, 1249150122, 1555081692, 1996064986,
   2554220882, 2821834349, 2952996808, 3210313671,
   3336571891, 3584528711, 113926993, 338241895,
   666307205, 773529912, 1294757372, 1396182291,
   1695183700, 1986661051, 2177026350, 2456956037,
   2730485921, 2820302411, 3259730800, 3345764771,
   3516065817, 3600352804, 4094571909, 275423344,
   430227734, 506948616, 659060556, 883997877,
   958139571, 1322822218, 1537002063, 1747873779,
   1955562222, 2024104815, 2227730452, 2361852424,
   2428436474, 2756734187, 3204031479, 3329325298]

/-- The eight working variables of the compression function. -/
structure Sha256State where
  a : Nat
  b : Nat
  c : Nat
  d : Nat
  e : Nat
  f : Nat
  g : Nat
  h : Nat
deriving DecidableEq, Repr

def sha256Init : Sha256State :=
  ⟨1779033703, 3144134277, 1013904242, 2773480762,
   1359893119, 2600822924, 528734635, 1541459225⟩

/-- One compression round with round constant `k` and schedule word `w`. -/
def sha256Round (st : Sha256State) (kw : Nat × Nat) : Sha256State :=
  let t1 := add32 st.h (add32 (bigSigma1 st.e)
    (add32 (chE st.e st.f st.g) (add32 kw.1 kw.2)))
  let t2 := add32 (bigSigma0 st.a) (majA st.a st.b st.c)
  ⟨add32 t1 t2, st.a, st.b, st.c, add32 st.d t1, st.e, st.f, st.g⟩

/-- Big-endian 32-bit words from a byte list (groups of four). -/
def toWords : List Nat → List Nat
  | b0 :: b1 :: b2 :: b3 :: rest =>
    (((b0 * 256 + b1) * 256 + b2) * 256 + b3) :: toWords rest
  | _ => []

/-- Extend a 16-word schedule by `k` further words. -/
def extendSchedule : Nat → List Nat → List Nat
  | 0, w => w
  | k + 1, w =>
    let i := w.length
    let next := add32 (add32 (w.getD (i - 16) 0) (smallSigma0 (w.getD (i - 15) 0)))
      (add32 (w.getD (i - 7) 0) (smallSigma1 (w.getD (i - 2) 0)))
    extendSchedule k (w ++ [next])

/-- Compress one 64-byte block into the hash state. -/
def sha256Compress (st : Sha256State) (block : List Nat) : Sha256State :=
  let w := extendSchedule 48 (toWords block)
  let s := (sha256K.zip w).foldl sha256Round st
  ⟨add32 st.a s.a, add32 st.b s.b, add32 st.c s.c, add32 st.d s.d,
   add32 st.e s.e, add32 st.f s.f, add32 st.g s.g, add32 st.h s.h⟩

/-- Big-endian rendering: `d` bytes of `n`. -/
def beBytes : Nat → Nat → List Nat
  | 0, _ => []
  | d + 1, n => beBytes d (n / 256) ++ [n % 256]

/-- SHA-256 padding: append `0x80`, zero bytes to 56 mod 64, then the
bit length as 8 big-endian bytes. -/
def padMessage (msg : List Nat) : List Nat :=
  let zeros := (64 - ((msg.length + 9) % 64)) % 64
  msg ++ [128] ++ List.replicate zeros 0 ++ beBytes 8 (8 * msg.length)

/-- Split into 64-byte blocks (fuel-driven; the fuel bounds the block count). -/
def chunks64Aux : Nat → List Nat → List (List Nat)
  | 0, _ => []
  | _ + 1, [] => []
  | fuel + 1, l => l.take 64 :: chunks64Aux fuel (l.drop 64)

def chunks64 (l : List Nat) : List (List Nat) :=
  chunks64Aux (l.length / 64 + 1) l

/-- The lowercase hexadecimal alphabet. -/
def hexAlphabet : List Char :=
  "0123456789abcdef".data

def hexDigit (n : Nat) : Char := hexAlphabet.getD (n % 16) '0'

/-- Exactly `d` lowercase hex characters of `n`, most significant first. -/
def toHexChars : Nat → Nat → List Char
  | 0, _ => []
  | d + 1, n => toHexChars d (n / 16) ++ [hexDigit n]

def sha256StateWords (st : Sha256State) : List Nat :=
  [st.a, st.b, st.c, st.d, st.e, st.f, st.g, st.h]

/-- SHA-256 of a byte sequence, rendered as 64 lowercase hex characters. -/
def sha256Hex (msg : List Nat) : String :=
  let final := (chunks64 (padMessage msg)).foldl sha256Compress sha256Init
  String.mk ((sha256StateWords final).flatMap (toHexChars 8))

/-- UTF-8 encoding of one character (Python `str.encode`). -/
def utf8Bytes (c : Char) : List Nat :=
  let n := c.toNat
  if n < 128 then [n]
  else if n < 2048 then [192 + n / 64, 128 + n % 64]
  else if n < 65536 then [224 + n / 4096, 128 + (n / 64) % 64, 128 + n % 64]
  else [240 + n / 262144, 128 + (n / 4096) % 64, 128 + (n / 64) % 64, 128 + n % 64]

/-- Modelled from the spec: `script_hash` of scripts/materialize_examples
(absent from src/) — the Fingerprint Engine: the SHA-256 digest of the
snippet body's UTF-8 bytes as lowercase hexadecimal. -/
def script_hash (code : String) : String :=
  sha256Hex (code.data.flatMap utf8Bytes)

/-! ## conftest.py: evaluate_shell_script

The shell-snippet evaluator.  The subprocess boundary is explicit: the
environment supplies which tools `shutil.which` finds and what
`subprocess.run` does under a given timeout (completes with an exit code,
or raises `TimeoutExpired`). -/

/-- What `subprocess.run(["sh", path], timeout=timeout)` did. -/
inductive RunOutcome where
  | completed (returncode : Int)
  | timedOut
deriving DecidableEq, Repr

/-- The evaluator's observable result: `pytest.skip`, success, or the
`AssertionError` it raises. -/
inductive EvalResult where
  | skipped (missing : List String)
  | passed
  | failed (msg : String)
deriving DecidableEq, Repr

/-- The evaluator's external world: tool lookup and the subprocess. -/
structure ShellWorld where
  available : String → Bool
  runScript : Int → RunOutcome

/-- Model of `requires = pragmas.get("requires", "sh").split()` in conftest.py. -/
def requiredTools (pragmas : List (String × String)) : List String :=
  pySplitAll (assocGetD pragmas "requires" "sh")

/-- Model of `timeout = int(pragmas.get("timeout", "60"))` in conftest.py. -/
def timeoutOf (pragmas : List (String × String)) : Int :=
  pyInt (assocGetD pragmas "timeout" "60")

/-- Model of `expected_rc = int(pragmas.get("exitcode", "0"))` in conftest.py. -/
def expectedRcOf (pragmas : List (String × String)) : Int :=
  pyInt (assocGetD pragmas "exitcode" "0")

/-- Model of `evaluate_shell_script` from conftest.py: skip when a required tool is
missing, run the script with the declared timeout, raise on timeout or on
an exit code other than the expected one. -/
def evaluate_shell_script (world : ShellWorld) (pragmas : List (String × String)) :
    EvalResult :=
  let missing := (requiredTools pragmas).filter (fun t => !world.available t)
  if missing.isEmpty then
    let timeout := timeoutOf pragmas
    let test_id := assocGetD pragmas "testrun" "unnamed"
    match world.runScript timeout with
    | RunOutcome.timedOut =>
      EvalResult.failed ("Script " ++ test_id ++ " timed out after " ++
        toString timeout ++ "s")
    | RunOutcome.completed rc =>
      let expected_rc := expectedRcOf pragmas
      if rc ≠ expected_rc then
        EvalResult.failed ("Script " ++ test_id ++ " exited with code " ++
          toString rc ++ " (expected " ++ toString expected_rc ++ ")")
      else EvalResult.passed
  else EvalResult.skipped missing

/-! ## The Snapshot Executor's working area

Modelled from the spec: the Snapshot Executor of scripts/materialize_examples
(absent from src/) "runs the snippet's body as a script inside a freshly
created, isolated temporary directory" and its "temporary filesystem usage
[is] fully cleaned up on every exit path (success, failure, or timeout) via
scoped acquisition/release of the temporary directory".  The filesystem is
the list of paths that exist; acquisition picks a path provably absent from
it (as `mkdtemp` does). -/

/-- A path longer than every existing path — hence fresh. -/
def freshTmpDir (fs : List String) : String :=
  String.mk (List.replicate ((fs.map String.length).foldr Nat.max 0 + 1) 't')

/-- Acquire the ephemeral working area: a fresh temporary directory. -/
def acquireTmp (fs : List String) : String × List String :=
  (freshTmpDir fs, freshTmpDir fs :: fs)

/-- Release it again (the `finally` of the scoped acquisition). -/
def releaseTmp (fs : List String) (p : String) : List String :=
  fs.erase p

/-- How running the snippet body in the working area ended. -/
inductive ExecOutcome where
  | success (tree : String)
  | badExit (rc : Int) (output : String)
  | execTimeout (output : String)
deriving DecidableEq, Repr

/-- A `SnippetExecutionError` carrying the captured output. -/
inductive SnippetExecutionError where
  | badExit (rc : Int) (output : String)
  | execTimeout (output : String)
deriving DecidableEq, Repr

/-- Modelled from the spec: `execute(snippet)` of the Snapshot Executor
(scripts/materialize_examples, absent from src/).  Returns the result, the
final filesystem and the directory the body ran in. -/
def run_snippet (fs : List String) (outcome : String → ExecOutcome) :
    Except SnippetExecutionError String × List String × String :=
  let acq := acquireTmp fs
  let tmp := acq.1
  let fsDuring := acq.2
  let result : Except SnippetExecutionError String :=
    match outcome tmp with
    | ExecOutcome.success tree => Except.ok tree
    | ExecOutcome.badExit rc out => Except.error (SnippetExecutionError.badExit rc out)
    | ExecOutcome.execTimeout out => Except.error (SnippetExecutionError.execTimeout out)
  (result, releaseTmp fsDuring tmp, tmp)

/-! ## Branch Namer, Remote/URL Resolver

Modelled from the spec: `branch_name` and `detect_remote_url` of
scripts/materialize_examples (absent from src/). -/

/-- Modelled from the spec: the Branch Namer —
`<namespace>/<document_id>/<run_id>/<target_name>` with the fixed
namespace `examples`. -/
def branch_name (document_id run_id target_name : String) : String :=
  "examples/" ++ document_id ++ "/" ++ run_id ++ "/" ++ target_name

/-- Error raised when no remote URL resolves (`RemoteNotFoundError`). -/
inductive RemoteNotFoundError where
  | mk (remote_name : String)
deriving DecidableEq, Repr

/-- Modelled from the spec: `detect_remote_url` of scripts/materialize_examples
(absent from src/).  Resolution order: a CI-supplied owner/repo coordinate
(`GITHUB_REPOSITORY`) is preferred, turned into a canonical web URL;
otherwise the version-control tool's configured URL for `remote_name`;
`RemoteNotFoundError` when neither yields a value. -/
def detect_remote_url (githubRepository : Option String)
    (gitConfiguredUrl : String → Option String) (remote_name : String) :
    Except RemoteNotFoundError String :=
  match githubRepository with
  | some repo => Except.ok ("https://github.com/" ++ repo)
  | none =>
    match gitConfiguredUrl remote_name with
    | some url => Except.ok url
    | none => Except.error (RemoteNotFoundError.mk remote_name)

/-! ## Submodule Rewriter

Modelled from the spec: `rewrite_submodule_urls` of
scripts/materialize_examples (absent from src/).  The nested-repository
manifest (`.gitmodules`) is a list of entries; an entry whose URL is
relative (the version-control convention: it starts with `./` or `../`)
is rewritten to `base_url` plus the nested target's own branch-scoped
path; absolute entries stay untouched.  How the nested target's own name
is obtained from the entry is internal to the absent script and is kept
abstract here as the mapping `targetNameOf`; the repository's test pins
one point of it: the entry with relative URL `../raw-data.git` belongs to
the target named `raw-data-work`. -/

/-- One entry of the nested-repository manifest. -/
structure SubmoduleEntry where
  name : String
  path : String
  url : String
deriving DecidableEq, Repr

/-- A URL is relative when it starts with `./` or `../`. -/
def isRelativeUrl (u : String) : Bool :=
  u.data.take 2 = ['.', '/'] || u.data.take 3 = ['.', '.', '/']

/-- Rewrite one URL under the nested-target naming `targetNameOf`: a
relative one becomes `base_url` plus the nested target's own branch-scoped
path; an absolute one is returned untouched. -/
def rewriteUrl (targetNameOf : String → String)
    (document_id run_id base_url u : String) : String :=
  if isRelativeUrl u then
    base_url ++ "/" ++ branch_name document_id run_id (targetNameOf u)
  else u

/-- Modelled from the spec: `rewrite_submodule_urls` (absent from src/),
applied to the manifest's entries. -/
def rewrite_submodule_urls (targetNameOf : String → String)
    (document_id run_id base_url : String)
    (manifest : List SubmoduleEntry) : List SubmoduleEntry :=
  manifest.map (fun e =>
    { e with url := rewriteUrl targetNameOf document_id run_id base_url e.url })

/-- The one point of the nested-target naming the repository's test pins:
the submodule referenced as `../raw-data.git` is the target `raw-data-work`
(src/tests/test_materialize.py, `TestRewriteSubmoduleUrls`). -/
def testTargetNameOf (u : String) : String :=
  if u = "../raw-data.git" then "raw-data-work" else u

/-! ## Reaper

Modelled from the spec: scripts/dematerialize_examples (absent from src/).
The remote's state is its list of branch names; `list_materialized`
enumerates the branches under the fixed namespace; dry-run only reports,
otherwise exactly the enumerated branches are deleted. -/

/-- The fixed namespace's ref prefix. -/
def examplesNamespace : String := "examples/"

/-- Enumeration `list_materialized`: the branches under the fixed namespace. -/
def list_materialized (remoteBranches : List String) : List String :=
  remoteBranches.filter (fun b => b.startsWith examplesNamespace)

/-- The Reaper: returns the reported branch list and the remote's branches
afterwards.  Dry-run performs `list_materialized` only. -/
def reap (dryRun : Bool) (remoteBranches : List String) :
    List String × List String :=
  let listed := list_materialized remoteBranches
  if dryRun then (listed, remoteBranches)
  else (listed, remoteBranches.filter (fun b => !b.startsWith examplesNamespace))

/-! ## Cache Store and Materializer

Modelled from the spec: the materialization engine of
scripts/materialize_examples (absent from src/).  A commit is its tree and
message; a branch's value is its history, tip first — content-addressed
commit identity is therefore the history list itself.  The cache record is
a labeled note attached out-of-band to the tip commit (git notes in the
source's ecosystem), never part of the history. -/

/-- A commit: tree content and message. -/
structure Commit where
  tree : String
  message : String
deriving DecidableEq, Repr

/-- A branch history, tip first.  Doubles as the tip commit's identity. -/
abbrev History := List Commit

/-- The version-control state: branches and the out-of-band notes channel. -/
structure GitState where
  branches : List (String × History)
  notes : List (History × String)
deriving DecidableEq, Repr

/-- The label of the cache metadata (the tests pin `Script-Hash:`). -/
def scriptHashLabel : String := "Script-Hash:"

/-- Match `pat` as a prefix of `cs`, returning the remainder. -/
def stripPrefixChars : List Char → List Char → Option (List Char)
  | [], rest => some rest
  | p :: ps, c :: cs => if c = p then stripPrefixChars ps cs else none
  | _ :: _, [] => none

/-- Parse the fingerprint out of a note: the labeled field
`Script-Hash: <hex>`; anything else is unparsable (treated as absent). -/
def parseNoteFingerprint (note : String) : Option String :=
  (stripPrefixChars (scriptHashLabel ++ " ").data note.data).map String.mk

/-- Lookup (`CacheStore.lookup`): the fingerprint recorded on the current tip of the
branch, absent when the branch does not exist or carries no record. -/
def cache_lookup (s : GitState) (branch : String) : Option String :=
  match assocGet s.branches branch with
  | none => none
  | some hist =>
    match assocGet s.notes hist with
    | none => none
    | some note => parseNoteFingerprint note

/-- Record (`CacheStore.record`): attach the fingerprint as a note on the branch's
current tip, replacing any prior record for that tip. -/
def cache_record (s : GitState) (branch : String) (fp : String) : GitState :=
  match assocGet s.branches branch with
  | none => s
  | some hist =>
    { s with notes := assocSet s.notes hist (scriptHashLabel ++ " " ++ fp) }

/-- The per-key signal the Materializer reports. -/
inductive MatEvent where
  | cacheHit (branch : String)
  | regenerated (branch : String)
deriving DecidableEq, Repr

/-- A version-control write the Materializer performs. -/
inductive VcWrite where
  | setBranch (branch : String) (hist : History)
  | setNote (tip : History) (note : String)
deriving DecidableEq, Repr

/-- Submodule rewriting applied to the snapshot: only the tip commit's tree
is rewritten (`rewriteTree`); history and messages are what the snippet
produced. -/
def rewriteTip (rewriteTree : String → String) : History → History
  | [] => []
  | c :: rest => { c with tree := rewriteTree c.tree } :: rest

/-- Modelled from the spec: one Materializer step for a
(document_id, run_id, target_name) key (§4.7).  `produced` is the history
the snippet's own actions left in its ephemeral working area.  On a
fingerprint match against the record on the branch's current tip: emit the
cache-hit signal and write nothing.  Otherwise: publish the rewritten
snapshot as the branch's new history — no synthetic commits — and record
the fingerprint out-of-band against the new tip. -/
def materializeOne (rewriteTree : String → String)
    (document_id run_id target_name body : String)
    (produced : History) (s : GitState) :
    List MatEvent × List VcWrite × GitState :=
  let branch := branch_name document_id run_id target_name
  let fp := script_hash body
  if cache_lookup s branch = some fp then
    ([MatEvent.cacheHit branch], [], s)
  else
    let newHist := rewriteTip rewriteTree produced
    let s1 : GitState := { s with branches := assocSet s.branches branch newHist }
    let s2 := cache_record s1 branch fp
    ([MatEvent.regenerated branch],
     [VcWrite.setBranch branch newHist,
      VcWrite.setNote newHist (scriptHashLabel ++ " " ++ fp)],
     s2)

/-- The values of all `# pragma: materialize <value>` lines of a script,
in order of appearance. -/
def materializeValues (code : String) : List String :=
  ((pragmaKVs code).filter (fun kv => kv.1 = "materialize")).map (fun kv => kv.2)

/-! ## Association list lemmas -/

theorem find?_map_set {α β : Type} [DecidableEq α] (l : List (α × β)) (k : α) (v : β)
    (h : l.any (fun kv => kv.1 = k) = true) :
    (l.map (fun kv => if kv.1 = k then (k, v) else kv)).find? (fun kv => kv.1 = k) =
      some (k, v) := by
  induction l with
  | nil => simp at h
  | cons hd tl ih =>
    by_cases hk : hd.1 = k
    · simp [hk, List.find?]
    · simp only [List.any_cons, decide_eq_true_eq, hk, Bool.false_or] at h
      simp [List.find?, hk, ih h]

theorem find?_map_set_ne {α β : Type} [DecidableEq α] (l : List (α × β)) (k k2 : α) (v : β)
    (hne : k2 ≠ k) :
    (l.map (fun kv => if kv.1 = k then (k, v) else kv)).find? (fun kv => kv.1 = k2) =
      l.find? (fun kv => kv.1 = k2) := by
  induction l with
  | nil => simp
  | cons hd tl ih =>
    by_cases hk : hd.1 = k
    · have : ¬ k = k2 := fun h => hne h.symm
      simp [hk, List.find?, this, ih]
    · by_cases h2 : hd.1 = k2 <;> simp [hk, List.find?, h2, hne, ih]

theorem assocGet_assocSet_self {α β : Type} [DecidableEq α] (l : List (α × β))
    (k : α) (v : β) : assocGet (assocSet l k v) k = some v := by
  unfold assocSet
  by_cases h : l.any (fun kv => kv.1 = k) = true
  · simp [h, assocGet, find?_map_set l k v h]
  · have hnone : l.find? (fun kv => kv.1 = k) = none := by
      rw [List.find?_eq_none]
      intro x hx hpx
      exact h (List.any_eq_true.mpr ⟨x, hx, hpx⟩)
    simp [h, assocGet, List.find?_append, hnone, List.find?]

theorem assocGet_assocSet_ne {α β : Type} [DecidableEq α] (l : List (α × β))
    (k k2 : α) (v : β) (hne : k2 ≠ k) :
    assocGet (assocSet l k v) k2 = assocGet l k2 := by
  unfold assocSet
  by_cases h : l.any (fun kv => kv.1 = k) = true
  · simp only [h, if_true, assocGet, find?_map_set_ne l k k2 v hne]
  · have hk : ¬ k = k2 := fun hk => hne hk.symm
    simp only [h, if_false, assocGet, List.find?_append, Bool.false_eq_true]
    simp [List.find?, hk]

/-! ## C3: the Branch Namer -/

/-- Separator-free components joined by the separator split uniquely. -/
theorem append_sep_inj {as bs xs ys : List Char} (ha : '/' ∉ as) (hb : '/' ∉ bs)
    (h : as ++ '/' :: xs = bs ++ '/' :: ys) : as = bs ∧ xs = ys := by
  induction as generalizing bs with
  | nil =>
    cases bs with
    | nil => simpa using h
    | cons b bs =>
      simp only [List.nil_append, List.cons_append, List.cons.injEq] at h
      simp [← h.1] at hb
  | cons a as ih =>
    cases bs with
    | nil =>
      simp only [List.cons_append, List.nil_append, List.cons.injEq] at h
      simp [h.1] at ha
    | cons b bs =>
      simp only [List.cons_append, List.cons.injEq] at h
      have := ih (fun hx => ha (List.mem_cons_of_mem a hx))
        (fun hx => hb (List.mem_cons_of_mem b hx)) h.2
      exact ⟨by rw [h.1, this.1], this.2⟩

theorem branch_name_data (document_id run_id target_name : String) :
    (branch_name document_id run_id target_name).data =
      "examples".data ++ '/' :: (document_id.data ++ '/' ::
        (run_id.data ++ '/' :: target_name.data)) := by
  simp [branch_name, String.data_append]

/-- C3 counterexample: the branch-naming function as modelled from the spec
is not injective on arbitrary triples — a `/` inside a component makes two
distinct (document_id, run_id, target_name) triples collide. -/
theorem branch_name_collision :
    branch_name "a/b" "c" "d" = branch_name "a" "b/c" "d" ∧
    ("a/b", "c", "d") ≠ (("a", "b/c", "d") : String × String × String) := by
  constructor
  · rfl
  · decide

/-- C3 (amended): the branch-naming function is deterministic, returns
`examples/<document_id>/<run_id>/<target_name>`, and is injective on every
pair of triples whose document ids and run ids are free of the separator
`/` (the sanitization the spec assumes upstream). -/
theorem branch_name_spec (d1 r1 t1 d2 r2 t2 : String)
    (hd1 : '/' ∉ d1.data) (hd2 : '/' ∉ d2.data)
    (hr1 : '/' ∉ r1.data) (hr2 : '/' ∉ r2.data) :
    branch_name d1 r1 t1 = "examples" ++ "/" ++ d1 ++ "/" ++ r1 ++ "/" ++ t1 ∧
    (branch_name d1 r1 t1 = branch_name d2 r2 t2 ↔ (d1, r1, t1) = (d2, r2, t2)) := by
  constructor
  · rfl
  · constructor
    · intro h
      have hdata := congrArg String.data h
      rw [branch_name_data, branch_name_data] at hdata
      have h1 := append_sep_inj (by decide) (by decide) hdata
      have h2 := append_sep_inj hd1 hd2 h1.2
      have h3 := append_sep_inj hr1 hr2 h2.2
      have e1 : d1 = d2 := String.ext h2.1
      have e2 : r1 = r2 := String.ext h3.1
      have e3 : t1 = t2 := String.ext h3.2
      simp [e1, e2, e3]
    · intro h
      simp only [Prod.mk.injEq] at h
      rw [h.1, h.2.1, h.2.2]

/-- C3 witness: the amended statement at the triples the tests use. -/
theorem branch_name_spec_witness :
    branch_name "stamped-awk-evolution" "scenario-2" "grocery-analysis" =
      "examples" ++ "/" ++ "stamped-awk-evolution" ++ "/" ++ "scenario-2" ++ "/" ++
        "grocery-analysis" ∧
    (branch_name "stamped-awk-evolution" "scenario-2" "grocery-analysis" =
        branch_name "stamped-awk-evolution" "scenario-4" "raw-data-work" ↔
      ("stamped-awk-evolution", "scenario-2", "grocery-analysis") =
        ("stamped-awk-evolution", "scenario-4", "raw-data-work")) :=
  branch_name_spec "stamped-awk-evolution" "scenario-2" "grocery-analysis"
    "stamped-awk-evolution" "scenario-4" "raw-data-work"
    (by decide) (by decide) (by decide) (by decide)

/-! ## C7: the Snapshot Executor's temporary working area -/

theorem length_le_foldr_max (fs : List String) (p : String) (hp : p ∈ fs) :
    p.length ≤ (fs.map String.length).foldr Nat.max 0 := by
  induction fs with
  | nil => cases hp
  | cons hd tl ih =>
    rcases List.mem_cons.mp hp with h | h
    · subst h; exact Nat.le_max_left _ _
    · exact Nat.le_trans (ih h) (Nat.le_max_right _ _)

theorem freshTmpDir_not_mem (fs : List String) : freshTmpDir fs ∉ fs := by
  intro hmem
  have hlen : (freshTmpDir fs).length =
      (fs.map String.length).foldr Nat.max 0 + 1 := by
    simp [freshTmpDir, String.length]
  have := length_le_foldr_max fs _ hmem
  omega

/-- C7: the Snapshot Executor runs the snippet's body in a freshly created
temporary working area — a directory that did not exist before and is not
the host repository — and the filesystem is restored (the working area
released) on every exit path: success, execution failure, and timeout alike;
in particular a timeout's error is returned only with the cleanup already
performed. -/
theorem run_snippet_spec (fs : List String) (hostRepo : String)
    (outcome : String → ExecOutcome) (hhost : hostRepo ∈ fs) :
    (run_snippet fs outcome).2.2 ∉ fs ∧
    (run_snippet fs outcome).2.2 ≠ hostRepo ∧
    (run_snippet fs outcome).2.1 = fs ∧
    (∀ out, outcome (run_snippet fs outcome).2.2 = ExecOutcome.execTimeout out →
      (run_snippet fs outcome).1 =
        Except.error (SnippetExecutionError.execTimeout out)) := by
  have hfresh : freshTmpDir fs ∉ fs := freshTmpDir_not_mem fs
  have h222 : (run_snippet fs outcome).2.2 = freshTmpDir fs := rfl
  refine ⟨by rw [h222]; exact hfresh, ?_, ?_, ?_⟩
  · intro h
    rw [h222] at h
    exact hfresh (h ▸ hhost)
  · simp [run_snippet, acquireTmp, releaseTmp]
  · intro out hout
    rw [h222] at hout
    simp only [run_snippet, acquireTmp]
    rw [hout]

/-- C7 witness: a concrete host repository and a run that times out. -/
theorem run_snippet_spec_witness :
    (run_snippet ["/host/repo"] (fun _ => ExecOutcome.execTimeout "boom")).2.2 ∉
        ["/host/repo"] ∧
    (run_snippet ["/host/repo"] (fun _ => ExecOutcome.execTimeout "boom")).2.2 ≠
      "/host/repo" ∧
    (run_snippet ["/host/repo"]
        (fun _ => ExecOutcome.execTimeout "boom")).2.1 = ["/host/repo"] ∧
    (∀ out, (fun _ => ExecOutcome.execTimeout "boom")
        (run_snippet ["/host/repo"] (fun _ => ExecOutcome.execTimeout "boom")).2.2 =
          ExecOutcome.execTimeout out →
      (run_snippet ["/host/repo"] (fun _ => ExecOutcome.execTimeout "boom")).1 =
        Except.error (SnippetExecutionError.execTimeout out)) :=
  run_snippet_spec ["/host/repo"] "/host/repo"
    (fun _ => ExecOutcome.execTimeout "boom") (by decide)

/-! ## C8: Remote/URL Resolver -/

/-- C8: remote URL resolution prefers the environment-provided coordinate
and turns it into a canonical web URL; otherwise it uses the locally
configured URL for the remote name; it fails with `RemoteNotFoundError`
exactly when neither source yields a value. -/
theorem detect_remote_url_spec (githubRepository : Option String)
    (gitConfiguredUrl : String → Option String) (remote_name : String) :
    (∀ repo, githubRepository = some repo →
      detect_remote_url githubRepository gitConfiguredUrl remote_name =
        Except.ok ("https://github.com/" ++ repo)) ∧
    (githubRepository = none → ∀ url, gitConfiguredUrl remote_name = some url →
      detect_remote_url githubRepository gitConfiguredUrl remote_name =
        Except.ok url) ∧
    ((∃ e, detect_remote_url githubRepository gitConfiguredUrl remote_name =
        Except.error e) ↔
      (githubRepository = none ∧ gitConfiguredUrl remote_name = none)) := by
  refine ⟨?_, ?_, ?_⟩
  · intro repo hrepo
    simp [detect_remote_url, hrepo]
  · intro hnone url hurl
    simp [detect_remote_url, hnone, hurl]
  · constructor
    · rintro ⟨e, he⟩
      cases hg : githubRepository with
      | some repo => simp [detect_remote_url, hg] at he
      | none =>
        cases hc : gitConfiguredUrl remote_name with
        | some url => simp [detect_remote_url, hg, hc] at he
        | none => exact ⟨rfl, rfl⟩
    · rintro ⟨hg, hc⟩
      exact ⟨RemoteNotFoundError.mk remote_name, by simp [detect_remote_url, hg, hc]⟩

/-! ## C9: the Reaper -/

/-- C9: in dry-run mode the Reaper only lists the materialized branches and
the remote's branches are untouched; otherwise the surviving branches are
exactly those not enumerated under the fixed namespace — each enumerated
branch (and nothing else) is deleted. -/
theorem reap_spec (remoteBranches : List String) :
    (reap true remoteBranches).2 = remoteBranches ∧
    (reap true remoteBranches).1 = list_materialized remoteBranches ∧
    (∀ b, b ∈ (reap false remoteBranches).2 ↔
      b ∈ remoteBranches ∧ b ∉ list_materialized remoteBranches) ∧
    (∀ b, b ∈ list_materialized remoteBranches ↔
      b ∈ remoteBranches ∧ b.startsWith examplesNamespace = true) := by
  refine ⟨rfl, rfl, ?_, ?_⟩
  · intro b
    simp [reap, list_materialized, List.mem_filter]
    tauto
  · intro b
    simp [list_materialized, List.mem_filter]

/-! ## C5: the Submodule Rewriter -/

theorem isRelativeUrl_eq_false_of_head (u : String) (h : u.data.head? ≠ some '.') :
    isRelativeUrl u = false := by
  cases hd : u.data with
  | nil => simp [isRelativeUrl, hd]
  | cons c rest =>
    have hc : c ≠ '.' := by
      intro hc
      apply h
      rw [hd, hc]
      rfl
    simp [isRelativeUrl, hd, hc]

/-- C5: for every nested-target naming, the submodule rewrite leaves
absolute URLs untouched, turns every relative URL into the absolute URL
`base_url` plus the nested target's own branch-scoped path (the Branch
Namer's hierarchy with the nested target's own name substituted) — which
is no longer relative — and re-running the rewrite on an already-rewritten
manifest changes nothing. -/
theorem rewrite_submodule_urls_spec (targetNameOf : String → String)
    (document_id run_id base_url : String)
    (manifest : List SubmoduleEntry)
    (hbase : base_url.data.head? ≠ some '.') :
    (∀ u, isRelativeUrl u = false →
      rewriteUrl targetNameOf document_id run_id base_url u = u) ∧
    (∀ u, isRelativeUrl u = true →
      rewriteUrl targetNameOf document_id run_id base_url u =
        base_url ++ "/" ++ branch_name document_id run_id (targetNameOf u) ∧
      isRelativeUrl (rewriteUrl targetNameOf document_id run_id base_url u) =
        false) ∧
    rewrite_submodule_urls targetNameOf document_id run_id base_url
        (rewrite_submodule_urls targetNameOf document_id run_id base_url
          manifest) =
      rewrite_submodule_urls targetNameOf document_id run_id base_url
        manifest := by
  have habs : ∀ s : String, isRelativeUrl (base_url ++ "/" ++ s) = false := by
    intro s
    apply isRelativeUrl_eq_false_of_head
    have hdata : (base_url ++ "/" ++ s).data = base_url.data ++ '/' :: s.data := by
      simp [String.data_append]
    rw [hdata]
    cases hb : base_url.data with
    | nil => simp
    | cons c rest =>
      rw [hb] at hbase
      simpa using hbase
  have hfix : ∀ u, rewriteUrl targetNameOf document_id run_id base_url
      (rewriteUrl targetNameOf document_id run_id base_url u) =
      rewriteUrl targetNameOf document_id run_id base_url u := by
    intro u
    by_cases hrel : isRelativeUrl u = true
    · simp [rewriteUrl, hrel, habs]
    · simp [rewriteUrl, hrel]
  refine ⟨?_, ?_, ?_⟩
  · intro u hu
    simp [rewriteUrl, hu]
  · intro u hu
    exact ⟨by simp [rewriteUrl, hu], by simp [rewriteUrl, hu, habs]⟩
  · unfold rewrite_submodule_urls
    rw [List.map_map]
    apply List.map_congr_left
    intro e _
    simp only [Function.comp_apply]
    simp [hfix]

/-- C5 witness: under the naming the repository's test pins, the test's
relative URL `../raw-data.git` is rewritten to the base URL plus the
branch-scoped path of the target `raw-data-work`, and rewriting the test's
manifest twice equals rewriting it once. -/
theorem rewrite_submodule_urls_spec_witness :
    rewriteUrl testTargetNameOf "stamped-awk-evolution" "scenario-4"
        "https://github.com/myyoda/principles-examples" "../raw-data.git" =
      "https://github.com/myyoda/principles-examples" ++ "/" ++
        branch_name "stamped-awk-evolution" "scenario-4" "raw-data-work" ∧
    rewrite_submodule_urls testTargetNameOf "stamped-awk-evolution" "scenario-4"
        "https://github.com/myyoda/principles-examples"
        (rewrite_submodule_urls testTargetNameOf "stamped-awk-evolution"
          "scenario-4" "https://github.com/myyoda/principles-examples"
          [SubmoduleEntry.mk "raw-data" "raw-data" "../raw-data.git"]) =
      rewrite_submodule_urls testTargetNameOf "stamped-awk-evolution"
        "scenario-4" "https://github.com/myyoda/principles-examples"
        [SubmoduleEntry.mk "raw-data" "raw-data" "../raw-data.git"] :=
  ⟨((rewrite_submodule_urls_spec testTargetNameOf "stamped-awk-evolution"
      "scenario-4" "https://github.com/myyoda/principles-examples"
      [SubmoduleEntry.mk "raw-data" "raw-data" "../raw-data.git"]
      (by decide)).2.1 "../raw-data.git" (by decide)).1,
   (rewrite_submodule_urls_spec testTargetNameOf "stamped-awk-evolution"
      "scenario-4" "https://github.com/myyoda/principles-examples"
      [SubmoduleEntry.mk "raw-data" "raw-data" "../raw-data.git"]
      (by decide)).2.2⟩

/-! ## C6: the shell-snippet evaluator -/

/-- C6: with every required tool available, the evaluator fails exactly when
the run times out or completes with an exit code other than the expected
one; the expected exit code defaults to 0 and the timeout to 60 seconds
when the annotations omit them. -/
theorem evaluate_shell_script_spec (world : ShellWorld)
    (pragmas : List (String × String))
    (htools : ∀ t ∈ requiredTools pragmas, world.available t = true) :
    ((∃ msg, evaluate_shell_script world pragmas = EvalResult.failed msg) ↔
      (world.runScript (timeoutOf pragmas) = RunOutcome.timedOut ∨
        ∃ rc, world.runScript (timeoutOf pragmas) = RunOutcome.completed rc ∧
          rc ≠ expectedRcOf pragmas)) ∧
    (assocGet pragmas "exitcode" = none → expectedRcOf pragmas = 0) ∧
    (assocGet pragmas "timeout" = none → timeoutOf pragmas = 60) := by
  have hmiss : (requiredTools pragmas).filter (fun t => !world.available t) = [] := by
    rw [List.filter_eq_nil_iff]
    intro t ht
    simp [htools t ht]
  refine ⟨?_, ?_, ?_⟩
  · simp only [evaluate_shell_script, hmiss, List.isEmpty_nil, if_true]
    cases hr : world.runScript (timeoutOf pragmas) with
    | timedOut => simp [hr]
    | completed rc =>
      by_cases hrc : rc = expectedRcOf pragmas
      · simp [hr, hrc]
      · simp only [hr, hrc, ne_eq, not_false_eq_true, if_true]
        constructor
        · intro _
          exact Or.inr ⟨rc, rfl, hrc⟩
        · intro _
          exact ⟨"Script " ++ assocGetD pragmas "testrun" "unnamed" ++
            " exited with code " ++ toString rc ++ " (expected " ++
            toString (expectedRcOf pragmas) ++ ")", rfl⟩
  · intro h0
    simp only [expectedRcOf, assocGetD, h0, Option.getD_none]
    decide
  · intro h0
    simp only [timeoutOf, assocGetD, h0, Option.getD_none]
    decide

/-- C6 witness: no pragmas, every tool available, exit code 1 against the
default expectation 0. -/
theorem evaluate_shell_script_spec_witness :
    ((∃ msg, evaluate_shell_script
        (ShellWorld.mk (fun _ => true) (fun _ => RunOutcome.completed 1)) [] =
          EvalResult.failed msg) ↔
      (RunOutcome.completed 1 = RunOutcome.timedOut ∨
        ∃ rc, RunOutcome.completed 1 = RunOutcome.completed rc ∧
          rc ≠ expectedRcOf [])) ∧
    (assocGet ([] : List (String × String)) "exitcode" = none →
      expectedRcOf [] = 0) ∧
    (assocGet ([] : List (String × String)) "timeout" = none →
      timeoutOf [] = 60) :=
  evaluate_shell_script_spec
    (ShellWorld.mk (fun _ => true) (fun _ => RunOutcome.completed 1)) []
    (fun _ _ => rfl)

/-! ## C4: the Fingerprint Engine -/

theorem toHexChars_length (d : Nat) : ∀ n, (toHexChars d n).length = d := by
  induction d with
  | zero => intro n; rfl
  | succ d ih => intro n; simp [toHexChars, ih]

theorem hexDigit_mem (n : Nat) : hexDigit n ∈ hexAlphabet := by
  have h : n % 16 < hexAlphabet.length := by
    have : n % 16 < 16 := Nat.mod_lt n (by decide)
    simpa [hexAlphabet] using this
  rw [hexDigit, List.getD_eq_getElem hexAlphabet '0' h]
  exact List.getElem_mem h

theorem toHexChars_mem (d : Nat) : ∀ n c, c ∈ toHexChars d n → c ∈ hexAlphabet := by
  induction d with
  | zero => intro n c hc; cases hc
  | succ d ih =>
    intro n c hc
    simp only [toHexChars, List.mem_append, List.mem_singleton] at hc
    rcases hc with hc | hc
    · exact ih _ c hc
    · rw [hc]
      exact hexDigit_mem n

theorem sha256Hex_length (msg : List Nat) : (sha256Hex msg).length = 64 := by
  simp [sha256Hex, sha256StateWords, String.length, toHexChars_length]

theorem sha256Hex_all_hex (msg : List Nat) :
    (sha256Hex msg).data.all (fun c => hexAlphabet.contains c) = true := by
  rw [List.all_eq_true]
  intro c hc
  have hc2 : c ∈ (sha256StateWords
      ((chunks64 (padMessage msg)).foldl sha256Compress sha256Init)).flatMap
        (toHexChars 8) := hc
  rw [List.mem_flatMap] at hc2
  obtain ⟨w, _, hcw⟩ := hc2
  have := toHexChars_mem 8 w c hcw
  simpa [List.contains] using this

/-- C4: the fingerprint is a pure function of the body — same body, same
digest — whose output always has the fixed length of 64 lowercase
hexadecimal characters (a 256-bit digest), and the two distinct bodies the
tests use receive distinct digests. -/
theorem script_hash_spec (body : String) :
    script_hash body = script_hash body ∧
    (script_hash body).length = 64 ∧
    (script_hash body).data.all (fun c => hexAlphabet.contains c) = true ∧
    script_hash "echo hello\n" ≠ script_hash "echo world\n" := by
  refine ⟨rfl, sha256Hex_length _, sha256Hex_all_hex _, ?_⟩
  decide

/-! ## C1, C2: the Materializer -/

theorem stripPrefixChars_append (ps cs : List Char) :
    stripPrefixChars ps (ps ++ cs) = some cs := by
  induction ps with
  | nil => rfl
  | cons p ps ih => simp [stripPrefixChars, ih]

theorem parseNoteFingerprint_label (fp : String) :
    parseNoteFingerprint (scriptHashLabel ++ " " ++ fp) = some fp := by
  have hdata : (scriptHashLabel ++ " " ++ fp).data =
      (scriptHashLabel ++ " ").data ++ fp.data := by
    simp [String.data_append]
  simp only [parseNoteFingerprint, hdata, stripPrefixChars_append, Option.map_some]
  rfl

theorem cache_lookup_after_record (s : GitState) (branch : String)
    (hist : History) (fp : String) :
    cache_lookup
      (cache_record { s with branches := assocSet s.branches branch hist } branch fp)
      branch = some fp := by
  have hget : assocGet (assocSet s.branches branch hist) branch = some hist :=
    assocGet_assocSet_self _ _ _
  simp only [cache_record, hget, cache_lookup, assocGet_assocSet_self,
    parseNoteFingerprint_label]

/-- C1: materializing the same key with the same (unchanged) body a second
time emits exactly the cache-hit signal, performs no version-control write,
and leaves the state — in particular the branch tip commit, its tree and
its parent history — exactly as the first run left it. -/
theorem materialize_idempotent (rewriteTree : String → String)
    (document_id run_id target_name body : String)
    (produced : History) (s : GitState) :
    materializeOne rewriteTree document_id run_id target_name body produced
        (materializeOne rewriteTree document_id run_id target_name body produced s).2.2 =
      ([MatEvent.cacheHit (branch_name document_id run_id target_name)], [],
        (materializeOne rewriteTree document_id run_id target_name body produced s).2.2) := by
  have key : ∀ s1 : GitState,
      cache_lookup s1 (branch_name document_id run_id target_name) =
        some (script_hash body) →
      materializeOne rewriteTree document_id run_id target_name body produced s1 =
        ([MatEvent.cacheHit (branch_name document_id run_id target_name)], [], s1) := by
    intro s1 h1
    simp [materializeOne, h1]
  by_cases h : cache_lookup s (branch_name document_id run_id target_name) =
      some (script_hash body)
  · rw [key s h]
    exact key s h
  · have hl : cache_lookup
        (materializeOne rewriteTree document_id run_id target_name body produced s).2.2
        (branch_name document_id run_id target_name) = some (script_hash body) := by
      simp only [materializeOne, h, if_neg, if_false, Bool.false_eq_true]
      exact cache_lookup_after_record s (branch_name document_id run_id target_name)
        (rewriteTip rewriteTree produced) (script_hash body)
    exact key _ hl

/-- C2: when the snippet's own actions produced exactly one commit, the
materialized branch holds exactly that one commit (submodule-rewritten
tree, untouched message) — the cache record lands in the out-of-band notes
channel keyed by the tip, never as an additional commit, and the tip
commit's message does not contain the cache metadata's label. -/
theorem materialize_single_commit (rewriteTree : String → String)
    (document_id run_id target_name body : String) (tip : Commit) (s : GitState)
    (hmiss : cache_lookup s (branch_name document_id run_id target_name) ≠
      some (script_hash body))
    (hmsg : strContains tip.message scriptHashLabel = false) :
    assocGet (materializeOne rewriteTree document_id run_id target_name body
        [tip] s).2.2.branches (branch_name document_id run_id target_name) =
      some [{ tip with tree := rewriteTree tip.tree }] ∧
    (∀ c ∈ [{ tip with tree := rewriteTree tip.tree }],
      strContains c.message scriptHashLabel = false) ∧
    assocGet (materializeOne rewriteTree document_id run_id target_name body
        [tip] s).2.2.notes [{ tip with tree := rewriteTree tip.tree }] =
      some (scriptHashLabel ++ " " ++ script_hash body) := by
  refine ⟨?_, ?_, ?_⟩
  · simp [materializeOne, hmiss, cache_record, rewriteTip, assocGet_assocSet_self]
  · intro c hc
    rw [List.mem_singleton] at hc
    subst hc
    exact hmsg
  · simp [materializeOne, hmiss, cache_record, rewriteTip, assocGet_assocSet_self]

/-- C2 witness: the end-to-end scenario's key with a one-commit snapshot. -/
theorem materialize_single_commit_witness :
    assocGet (materializeOne id "test-example" "demo-1" "myrepo" "echo hello"
        [Commit.mk "tree-hello" "init"] (GitState.mk [] [])).2.2.branches
      (branch_name "test-example" "demo-1" "myrepo") =
      some [{ Commit.mk "tree-hello" "init" with tree := id "tree-hello" }] ∧
    (∀ c ∈ [{ Commit.mk "tree-hello" "init" with tree := id "tree-hello" }],
      strContains c.message scriptHashLabel = false) ∧
    assocGet (materializeOne id "test-example" "demo-1" "myrepo" "echo hello"
        [Commit.mk "tree-hello" "init"] (GitState.mk [] [])).2.2.notes
      [{ Commit.mk "tree-hello" "init" with tree := id "tree-hello" }] =
      some (scriptHashLabel ++ " " ++ script_hash "echo hello") :=
  materialize_single_commit id "test-example" "demo-1" "myrepo" "echo hello"
    (Commit.mk "tree-hello" "init") (GitState.mk [] [])
    (by simp [cache_lookup, assocGet]) (by decide)

/-! ## C10: parse_pragmas -/

/-- Folding the pragma lines: for a key other than `materialize`, the last
occurrence wins; with no occurrence the initial dict's value survives. -/
theorem foldl_assoc_other (lines : List String) (k : String)
    (hk : k ≠ "materialize") :
    ∀ d : PragmaDict,
      assocGet (lines.foldl processPragmaLine d) k =
        (match ((lines.filterMap pragmaKV).filter (fun kv => kv.1 = k)).getLast? with
          | some kv => some (PragmaVal.str kv.2)
          | none => assocGet d k) := by
  induction lines with
  | nil => intro d; rfl
  | cons line rest ih =>
    intro d
    simp only [List.foldl_cons, List.filterMap_cons]
    cases hkv : pragmaKV line with
    | none =>
      simp only [processPragmaLine, hkv]
      exact ih d
    | some kv =>
      obtain ⟨key, value⟩ := kv
      simp only [processPragmaLine, hkv]
      by_cases hmat : key = "materialize"
      · subst hmat
        have hne : ¬ (("materialize", value).1 = k) := fun h => hk h.symm
        rw [if_pos rfl, ih _, assocGet_assocSet_ne _ _ _ _ hk]
        simp [List.filter_cons, hne]
      · rw [if_neg hmat]
        by_cases hkey : key = k
        · subst hkey
          rw [ih _, assocGet_assocSet_self]
          have hfc : ((key, value) :: rest.filterMap pragmaKV).filter
              (fun kv => kv.1 = key) =
              (key, value) :: (rest.filterMap pragmaKV).filter
                (fun kv => kv.1 = key) := by
            simp [List.filter_cons]
          rw [hfc]
          cases hL : (rest.filterMap pragmaKV).filter (fun kv => kv.1 = key) with
          | nil => simp
          | cons x xs =>
            rw [List.getLast?_cons_cons]
            cases hg : (x :: xs).getLast? with
            | none =>
              rw [List.getLast?_eq_none_iff] at hg
              exact (List.cons_ne_nil x xs hg).elim
            | some y => rfl
        · have hne2 : k ≠ key := fun h => hkey h.symm
          rw [ih _, assocGet_assocSet_ne _ _ _ _ hne2]
          have hne3 : ¬ ((key, value).1 = k) := hkey
          simp [List.filter_cons, hne3]

/-- Folding the pragma lines: the `materialize` entry accumulates the value
of every materialize line, in order, onto whatever list the initial dict
already held. -/
theorem foldl_assoc_mat (lines : List String) :
    ∀ d : PragmaDict,
      (assocGet d "materialize" = none →
        assocGet (lines.foldl processPragmaLine d) "materialize" =
          (if ((lines.filterMap pragmaKV).filter
                (fun kv => kv.1 = "materialize")).map (fun kv => kv.2) = [] then none
           else some (PragmaVal.list (((lines.filterMap pragmaKV).filter
                (fun kv => kv.1 = "materialize")).map (fun kv => kv.2))))) ∧
      (∀ vs0, assocGet d "materialize" = some (PragmaVal.list vs0) →
        assocGet (lines.foldl processPragmaLine d) "materialize" =
          some (PragmaVal.list (vs0 ++ ((lines.filterMap pragmaKV).filter
            (fun kv => kv.1 = "materialize")).map (fun kv => kv.2)))) := by
  induction lines with
  | nil =>
    intro d
    constructor
    · intro h0
      simpa using h0
    · intro vs0 h0
      simpa using h0
  | cons line rest ih =>
    intro d
    have step : ∀ d2 : PragmaDict, (line :: rest).foldl processPragmaLine d2 =
        rest.foldl processPragmaLine (processPragmaLine d2 line) := fun _ => rfl
    constructor
    · intro h0
      rw [step, List.filterMap_cons]
      cases hkv : pragmaKV line with
      | none =>
        simp only [processPragmaLine, hkv]
        exact (ih d).1 h0
      | some kv =>
        obtain ⟨key, value⟩ := kv
        simp only [processPragmaLine, hkv]
        by_cases hmat : key = "materialize"
        · subst hmat
          rw [if_pos rfl]
          simp only [h0]
          have h1 : assocGet (assocSet d "materialize"
              (PragmaVal.list ([] ++ [value]))) "materialize" =
              some (PragmaVal.list [value]) := by
            simpa using assocGet_assocSet_self d "materialize"
              (PragmaVal.list ([] ++ [value]))
          rw [(ih _).2 [value] h1]
          simp [List.filter_cons]
        · rw [if_neg hmat]
          have h1 : assocGet (assocSet d key (PragmaVal.str value)) "materialize" =
              none := by
            rw [assocGet_assocSet_ne _ _ _ _ (fun h => hmat h.symm)]
            exact h0
          rw [(ih _).1 h1]
          have hne3 : ¬ ((key, value).1 = "materialize") := hmat
          have hfc : ((key, value) :: rest.filterMap pragmaKV).filter
              (fun kv => kv.1 = "materialize") =
              (rest.filterMap pragmaKV).filter (fun kv => kv.1 = "materialize") := by
            simp [List.filter_cons, hne3]
          rw [hfc]
    · intro vs0 h0
      rw [step, List.filterMap_cons]
      cases hkv : pragmaKV line with
      | none =>
        simp only [processPragmaLine, hkv]
        exact (ih d).2 vs0 h0
      | some kv =>
        obtain ⟨key, value⟩ := kv
        simp only [processPragmaLine, hkv]
        by_cases hmat : key = "materialize"
        · subst hmat
          rw [if_pos rfl]
          simp only [h0]
          have h1 : assocGet (assocSet d "materialize"
              (PragmaVal.list (vs0 ++ [value]))) "materialize" =
              some (PragmaVal.list (vs0 ++ [value])) :=
            assocGet_assocSet_self d "materialize" (PragmaVal.list (vs0 ++ [value]))
          rw [(ih _).2 (vs0 ++ [value]) h1]
          simp [List.filter_cons, List.append_assoc]
        · rw [if_neg hmat]
          have h1 : assocGet (assocSet d key (PragmaVal.str value)) "materialize" =
              some (PragmaVal.list vs0) := by
            rw [assocGet_assocSet_ne _ _ _ _ (fun h => hmat h.symm)]
            exact h0
          rw [(ih _).2 vs0 h1]
          have hne3 : ¬ ((key, value).1 = "materialize") := hmat
          have hfc : ((key, value) :: rest.filterMap pragmaKV).filter
              (fun kv => kv.1 = "materialize") =
              (rest.filterMap pragmaKV).filter (fun kv => kv.1 = "materialize") := by
            simp [List.filter_cons, hne3]
          rw [hfc]

/-- C10: for every script text, `parse_pragmas` returns the `materialize`
key as the list of the values of all its materialize pragma lines in order
of appearance (absent when there are none); for every other key the value
is that of the last occurrence; and a pragma line with a key but no value
maps that key to the empty string. -/
theorem parse_pragmas_spec (code : String) :
    assocGet (parse_pragmas code) "materialize" =
      (if materializeValues code = [] then none
       else some (PragmaVal.list (materializeValues code))) ∧
    (∀ k, k ≠ "materialize" →
      assocGet (parse_pragmas code) k =
        Option.map (fun kv => PragmaVal.str kv.2)
          (((pragmaKVs code).filter (fun kv => kv.1 = k)).getLast?)) ∧
    assocGet (parse_pragmas "# pragma: testrun") "testrun" =
      some (PragmaVal.str "") := by
  refine ⟨?_, ?_, ?_⟩
  · have h := (foldl_assoc_mat (pySplitlines code) []).1 (by simp [assocGet])
    simpa [parse_pragmas, pragmaKVs, materializeValues] using h
  · intro k hk
    have h := foldl_assoc_other (pySplitlines code) k hk []
    rw [parse_pragmas, h]
    cases hlast : (((pySplitlines code).filterMap pragmaKV).filter
        (fun kv => kv.1 = k)).getLast? with
    | none => simp [pragmaKVs, hlast, assocGet]
    | some kv => simp [pragmaKVs, hlast]
  · decide

end Materialize
